import Mathlib

/-!
Verification development for the Keras adapter module `deepchem/models/deep.py`.

The module contains:
* `to_one_hot` — one-hot encoding of a binary label vector;
* `KerasModel.save` / `KerasModel.load` — persistence of a raw model as a
  JSON architecture file plus an H5 weight blob;
* `MultiTaskDNN` — construction of a shared-trunk multi-headed graph,
  packaging of batches into named-array dictionaries (`get_data_dict`,
  `get_sample_weight`), one training step (`fit_on_batch`) and one
  prediction step (`predict_on_batch`);
* `SingleTaskDNN` — a delegating subclass.

Numeric array entries are modelled as rationals (ℚ); matrices are lists of
rows.  The external engine (Keras) is opaque: its outputs enter the
embedding as explicit arguments, and its serialization is modelled by the
interface the spec describes.
-/

namespace DeepChem

/- ### Python string sorting

`sorted()` on Python strings compares code points lexicographically.  We
model that order directly on the character lists of Lean strings, because
the kernel cannot evaluate the byte-level comparison of `String.le`. -/

/-- Lexicographic (code-point) comparison of character lists, the order
Python `sorted` uses on strings. -/
def charListLe : List Char → List Char → Bool
  | [], _ => true
  | _ :: _, [] => false
  | a :: as, b :: bs => if a < b then true else if b < a then false else charListLe as bs

/-- The order on strings used by Python `sorted`. -/
def strLe (a b : String) : Prop := charListLe a.data b.data = true

instance : DecidableRel strLe := fun a b =>
  inferInstanceAs (Decidable (charListLe a.data b.data = true))

theorem charListLe_total_aux : ∀ (a b : List Char),
    charListLe a b = true ∨ charListLe b a = true := by
  intro a
  induction a with
  | nil => intro b; left; rfl
  | cons x xs ih =>
    intro b
    cases b with
    | nil => right; rfl
    | cons y ys =>
      by_cases hxy : x < y
      · left; simp [charListLe, hxy]
      · by_cases hyx : y < x
        · right; simp [charListLe, hyx]
        · rcases ih ys with h | h
          · left; simp [charListLe, hxy, hyx, h]
          · right; simp [charListLe, hxy, hyx, h]

theorem charListLe_trans_aux : ∀ (a b c : List Char),
    charListLe a b = true → charListLe b c = true → charListLe a c = true := by
  intro a
  induction a with
  | nil => intro b c _ _; rfl
  | cons x xs ih =>
    intro b c hab hbc
    cases b with
    | nil => simp [charListLe] at hab
    | cons y ys =>
      cases c with
      | nil => simp [charListLe] at hbc
      | cons z zs =>
        simp only [charListLe] at hab hbc ⊢
        by_cases hxy : x < y
        · by_cases hyz : y < z
          · have hxz : x < z := lt_trans hxy hyz
            simp [hxz]
          · by_cases hzy : z < y
            · simp [hxy, hyz, hzy] at hbc
            · have hyz2 : y = z := le_antisymm (not_lt.mp hzy) (not_lt.mp hyz)
              have hxz : x < z := hyz2 ▸ hxy
              simp [hxz]
        · by_cases hyx : y < x
          · simp [hxy, hyx] at hab
          · have hxy2 : x = y := le_antisymm (not_lt.mp hyx) (not_lt.mp hxy)
            by_cases hyz : y < z
            · have hxz : x < z := hxy2 ▸ hyz
              simp [hxz]
            · by_cases hzy : z < y
              · simp [hyz, hzy] at hbc
              · have hyz2 : y = z := le_antisymm (not_lt.mp hzy) (not_lt.mp hyz)
                have hxz : ¬ x < z := by rw [hxy2, hyz2]; exact lt_irrefl z
                have hzx : ¬ z < x := by rw [hxy2, hyz2]; exact lt_irrefl z
                simp only [hxy, hyx, if_neg, ite_false] at hab
                simp only [hyz, hzy, if_neg, ite_false] at hbc
                simp [hxz, hzx, ih ys zs hab hbc]

instance : IsTotal String strLe :=
  ⟨fun a b => charListLe_total_aux a.data b.data⟩

instance : IsTrans String strLe :=
  ⟨fun a b c => charListLe_trans_aux a.data b.data c.data⟩

/-- Model of Python `sorted` on a list of strings (ascending code-point
lexicographic order; `insertionSort` is stable, like Python sort). -/
def pySorted (l : List String) : List String := l.insertionSort strLe

/- ### numpy fragments used by the module -/

/-- A numpy ndarray, reduced to what the module observes: its shape and its
row-major flat data. -/
structure NDArray where
  shape : List Nat
  data : List ℚ
deriving DecidableEq

/-- `np.squeeze`: removes every axis of extent 1; the flat data is unchanged. -/
def np_squeeze (a : NDArray) : NDArray :=
  NDArray.mk (a.shape.filter (fun d => d != 1)) a.data

/-- A matrix as a list of rows. -/
abbrev Mat := List (List ℚ)

/-- Column `j` of a matrix (`m[:, j]` for a well-shaped matrix whose rows all
have length `> j`; out-of-range entries default to 0). -/
def col (m : Mat) (j : Nat) : List ℚ := m.map (fun row => row.getD j 0)

/-- Accumulator loop for `np.argmax`: keeps the first index attaining the
running maximum (numpy returns the first maximal index). -/
def argmaxGo (best : Nat × ℚ) (i : Nat) : List ℚ → Nat × ℚ
  | [] => best
  | v :: rest => argmaxGo (if best.2 < v then (i, v) else best) (i + 1) rest

/-- `np.argmax` over a vector: the first index of the maximal entry
(0 on the empty vector, which numpy rejects; never reached here). -/
def argmaxIdx : List ℚ → Nat
  | [] => 0
  | v :: rest => (argmaxGo (0, v) 1 rest).1

/-- `np.zeros((n, t))` as a list of rows. -/
def zerosMat (n t : Nat) : Mat := List.replicate n (List.replicate t 0)

/- ### `to_one_hot` (module-level function of deep.py) -/

/-- `to_one_hot`: turns a label vector into an `[n, 2]` matrix.  The source
allocates `np.zeros((n, 2))` and overwrites row `i` with `[1, 0]` when
`y[i] == 0` and with `[0, 1]` when `y[i] == 1`; any other label leaves the
all-zero row. -/
def to_one_hot (y : List ℚ) : Mat :=
  y.map (fun val => if val = 0 then [1, 0] else if val = 1 then [0, 1] else [0, 0])

/- ### Task specification and model parameters -/

/-- The two task kinds the module dispatches on (the source matches the
strings "classification" and "regression"). -/
inductive TaskType
  | classification
  | regression
deriving DecidableEq

/-- A Task Specification: a dict from task identifier to task kind,
modelled as an association list with the dict insertion order. -/
abbrev TaskTypes := List (String × TaskType)

/-- Python dict lookup on an association list (first binding wins; dict keys
are unique, so at most one binding exists). -/
def dictGet {α : Type} : List (String × α) → String → Option α
  | [], _ => none
  | (k, v) :: rest, key => if k = key then some v else dictGet rest key

/-- `task_types[task]`.  In the source every lookup uses a key of the dict,
so the default of this total version is never reached. -/
def kindOf (tt : TaskTypes) (task : String) : TaskType :=
  (dictGet tt task).getD TaskType.classification

/-- `sorted(task_types.keys())`. -/
def sortedTasks (tt : TaskTypes) : List String := pySorted (tt.map Prod.fst)

/-- The output name `"task%d" % ind`. -/
def taskName (ind : Nat) : String := "task" ++ toString ind

/-- The head-layer name `"dense_head%d" % ind`. -/
def headName (ind : Nat) : String := "dense_head" ++ toString ind

/-- Model Parameters: the recognized options of the configuration dict. -/
structure ModelParams where
  data_shape : Nat
  nb_hidden : Nat
  init : String
  activation : String
  dropout : ℚ
  learning_rate : ℚ
  decay : ℚ
  momentum : ℚ
  nesterov : Bool
deriving DecidableEq

/- ### The Keras graph, as far as the module configures it -/

/-- A layer passed to `add_node`.  Keras `Dense` defaults to the linear
activation when none is passed, so the regression head built as
`Dense(1, init=...)` carries activation "linear". -/
inductive LayerSpec
  | dense (width : Nat) (init : String) (activation : String)
  | dropout (rate : ℚ)
deriving DecidableEq

/-- One construction call on the Keras `Graph`. -/
inductive GraphOp
  | add_input (nm : String) (input_shape : Nat)
  | add_node (layer : LayerSpec) (nm : String) (input : String)
  | add_output (nm : String) (input : String)
deriving DecidableEq

/-- The SGD optimizer configuration. -/
structure SGDSpec where
  lr : ℚ
  decay : ℚ
  momentum : ℚ
  nesterov : Bool
deriving DecidableEq

/-- The compiled graph: the construction calls, the per-output loss dict (in
insertion order) and the optimizer. -/
structure GraphModel where
  ops : List GraphOp
  loss : List (String × String)
  optimizer : SGDSpec
deriving DecidableEq

/-- The loss string selected for a task kind. -/
def lossName : TaskType → String
  | TaskType.classification => "binary_crossentropy"
  | TaskType.regression => "mean_squared_error"

/-- The two graph calls the head loop issues for one task: the dense head
(width 2 softmax for classification, width 1 with the default linear
activation for regression) wired to the shared dropout layer (`top_layer`
in the source), and the named output wired to that head. -/
def headOps (mp : ModelParams) (kind : TaskType) (ind : Nat) : List GraphOp :=
  match kind with
  | TaskType.classification =>
      [GraphOp.add_node (LayerSpec.dense 2 mp.init "softmax") (headName ind) "dropout",
       GraphOp.add_output (taskName ind) (headName ind)]
  | TaskType.regression =>
      [GraphOp.add_node (LayerSpec.dense 1 mp.init "linear") (headName ind) "dropout",
       GraphOp.add_output (taskName ind) (headName ind)]

/-- The head loop `for ind, task in enumerate(sorted_tasks)` of `__init__`. -/
def headSection (tt : TaskTypes) (mp : ModelParams) : Nat → List String → List GraphOp
  | _, [] => []
  | ind, task :: rest =>
      headOps mp (kindOf tt task) ind ++ headSection tt mp (ind + 1) rest

/-- The loss-dict loop of `__init__`. -/
def lossSection (tt : TaskTypes) : Nat → List String → List (String × String)
  | _, [] => []
  | ind, task :: rest =>
      (taskName ind, lossName (kindOf tt task)) :: lossSection tt (ind + 1) rest

/-- The graph `MultiTaskDNN.__init__` builds: shared input, shared dense
trunk, shared dropout, then one head and one named output per task in
sorted order; per-output losses; one SGD optimizer from the model
parameters. -/
def buildGraph (tt : TaskTypes) (mp : ModelParams) : GraphModel :=
  let sorted_tasks := sortedTasks tt
  GraphModel.mk
    (GraphOp.add_input "input" mp.data_shape ::
      GraphOp.add_node (LayerSpec.dense mp.nb_hidden mp.init mp.activation) "dense" "input" ::
      GraphOp.add_node (LayerSpec.dropout mp.dropout) "dropout" "dense" ::
      headSection tt mp 0 sorted_tasks)
    (lossSection tt 0 sorted_tasks)
    (SGDSpec.mk mp.learning_rate mp.decay mp.momentum mp.nesterov)

/-- Selects an `add_output` call: output name and the head it is wired to. -/
def outSelect : GraphOp → Option (String × String)
  | GraphOp.add_output nm input => some (nm, input)
  | _ => none

/-- Selects the name of an `add_node` call wired to the shared dropout
layer, i.e. a dense head. -/
def headSelect : GraphOp → Option String
  | GraphOp.add_node _ nm input => if input = "dropout" then some nm else none
  | _ => none

/-- The named outputs of a graph with the head each is wired to, in
construction order. -/
def graphOutputs (g : GraphModel) : List (String × String) :=
  g.ops.filterMap outSelect

/-- The names of the nodes wired to the shared dropout layer, in
construction order. -/
def denseHeads (g : GraphModel) : List String :=
  g.ops.filterMap headSelect

/-- The engine initializes head and trunk weights by the configured `init`
scheme; their numeric values are opaque to the module, so the embedding
leaves the freshly built blob empty. -/
def initWeights : List ℚ := []

/-- A raw (compiled) Keras model: its architecture plus its weight blob.
`to_json` serializes exactly the architecture, `save_weights` exactly the
blob. -/
structure RawModel where
  graph : GraphModel
  weights : List ℚ
deriving DecidableEq

/-- The wrapper state after `MultiTaskDNN.__init__` (the base constructor
stores the task specification and parameters; the raw model exists iff the
caller asked for construction). -/
structure MultiTaskDNNState where
  task_types : TaskTypes
  model_params : ModelParams
  raw_model : Option RawModel
deriving DecidableEq

/-- `MultiTaskDNN.__init__(task_types, model_params, initialize_raw_model)`:
builds and compiles the graph only when the flag is set. -/
def MultiTaskDNN.construct (tt : TaskTypes) (mp : ModelParams)
    (initRawModel : Bool) : MultiTaskDNNState :=
  MultiTaskDNNState.mk tt mp
    (if initRawModel then some (RawModel.mk (buildGraph tt mp) initWeights) else none)

/- ### Data shaping -/

/-- A value stored in the data dict: the feature matrix, a one-hot label
matrix, or a raw label/weight column. -/
inductive DataValue
  | mat (m : Mat)
  | vec (v : List ℚ)
deriving DecidableEq

/-- The dict entry the data-dict loop builds for one task (classification
labels are one-hot encoded, regression labels are the raw column). -/
def entryFor (tt : TaskTypes) (y : Mat) (ind : Nat) (task : String) : String × DataValue :=
  match kindOf tt task with
  | TaskType.classification => (taskName ind, DataValue.mat (to_one_hot (col y ind)))
  | TaskType.regression => (taskName ind, DataValue.vec (col y ind))

/-- The task loop of `get_data_dict`: when `y` is absent the body adds
nothing; otherwise it adds one entry per sorted task. -/
def taskEntries (tt : TaskTypes) (y : Option Mat) : Nat → List String → List (String × DataValue)
  | _, [] => []
  | ind, task :: rest =>
      match y with
      | none => taskEntries tt none (ind + 1) rest
      | some ym => entryFor tt ym ind task :: taskEntries tt (some ym) (ind + 1) rest

/-- `MultiTaskDNN.get_data_dict(X, y=None)`: `"input" → X` first, then the
per-task entries in sorted order (Python dicts preserve insertion order). -/
def get_data_dict (tt : TaskTypes) (X : Mat) (y : Option Mat) : List (String × DataValue) :=
  ("input", DataValue.mat X) :: taskEntries tt y 0 (sortedTasks tt)

/-- `MultiTaskDNN.get_sample_weight(w)`:
`for ind in range(len(sorted(task_types.keys())))` maps `"task%d" % ind` to
`w[:, ind]`. -/
def get_sample_weight (tt : TaskTypes) (w : Mat) : List (String × List ℚ) :=
  (List.range (sortedTasks tt).length).map (fun ind => (taskName ind, col w ind))

/-- `w + eps * np.ones(np.shape(w))` with `eps = .001`: adds 1/1000 to every
entry. -/
def addEps (w : Mat) : Mat := w.map (fun row => row.map (fun x => x + 1 / 1000))

/-- The payload `fit_on_batch` hands to the engine call
`raw_model.train_on_batch(data, sample_weight=sample_weight)`. -/
structure FitCall where
  data : List (String × DataValue)
  sample_weight : List (String × List ℚ)
deriving DecidableEq

/-- `MultiTaskDNN.fit_on_batch(X, y, w)`: epsilon-shifts the weights, then
packages data and sample weights for the engine call (whose returned loss is
passed through unchanged and is opaque here). -/
def fit_on_batch (tt : TaskTypes) (X y w : Mat) : FitCall :=
  FitCall.mk (get_data_dict tt X (some y)) (get_sample_weight tt (addEps w))

/- ### Prediction assembly -/

/-- The per-row reduction applied to one engine output: classification takes
the row-wise `np.argmax` over the two class probabilities, regression takes
the entry of the squeezed `[n, 1]` output. -/
def applyKind (kind : TaskType) (row : List ℚ) : ℚ :=
  match kind with
  | TaskType.classification => (argmaxIdx row : ℚ)
  | TaskType.regression => row.headD 0

/-- `np.squeeze(np.argmax(out, axis=1))` resp. `np.squeeze(out)`: the column
vector written into `y_pred[:, ind]` for one task. -/
def taskColumn (kind : TaskType) (out : Mat) : List ℚ := out.map (applyKind kind)

/-- `y_pred[:, j] = cvec` (with the scalar-broadcast case of a one-row
matrix giving the same single entry). -/
def setColumn (j : Nat) (cvec : List ℚ) : Nat → Mat → Mat
  | _, [] => []
  | i, row :: rest => row.set j (cvec.getD i 0) :: setColumn j cvec (i + 1) rest

/-- The prediction loop: for each sorted task, writes that task's reduced
engine output into column `ind` of the accumulator matrix. -/
def fillColumns (tt : TaskTypes) (yd : String → Mat) : Nat → List String → Mat → Mat
  | _, [], acc => acc
  | ind, task :: rest, acc =>
      fillColumns tt yd (ind + 1) rest
        (setColumn ind (taskColumn (kindOf tt task) (yd (taskName ind))) 0 acc)

/-- The effect of `fillColumns` on one fixed row `k` of the accumulator:
each task writes one entry of that row. -/
def rowFill (tt : TaskTypes) (yd : String → Mat) (k : Nat) : Nat → List String → List ℚ → List ℚ
  | _, [], row => row
  | ind, task :: rest, row =>
      rowFill tt yd k (ind + 1) rest
        (row.set ind ((taskColumn (kindOf tt task) (yd (taskName ind))).getD k 0))

/-- `MultiTaskDNN.predict_on_batch(X)`: the engine's named outputs
`y_pred_dict` are an explicit argument (the module only reads them).  An
`[n_samples, n_tasks]` zero matrix is filled column by column in sorted task
order and the result is `np.squeeze`d. -/
def predict_on_batch (tt : TaskTypes) (X : Mat) (y_pred_dict : String → Mat) : NDArray :=
  let sorted_tasks := sortedTasks tt
  let nb_samples := X.length
  let nb_tasks := sorted_tasks.length
  let y_pred := fillColumns tt y_pred_dict 0 sorted_tasks (zerosMat nb_samples nb_tasks)
  np_squeeze (NDArray.mk [nb_samples, nb_tasks] y_pred.flatten)

/-- The value the assembled matrix holds at row `i`, column `j` (task `j` in
sorted order): the `applyKind` reduction of row `i` of the engine output
named `taskName j`. -/
def predEntry (tt : TaskTypes) (yd : String → Mat) (task : String) (j i : Nat) : ℚ :=
  applyKind (kindOf tt task) ((yd (taskName j)).getD i [])

/- ### Persistence -/

/-- A file the adapter touches: the JSON architecture description, the H5
weight blob, or an artifact of the generic base save hook. -/
inductive FileContent
  | json (arch : GraphModel)
  | h5 (weights : List ℚ)
  | base (marker : String)
deriving DecidableEq

/-- A directory tree as an association list from path to content. -/
abbrev FS := List (String × FileContent)

/-- Writing a file replaces any existing file of the same path. -/
def fsWrite (fs : FS) (path : String) (c : FileContent) : FS :=
  (path, c) :: fs.filter (fun p => decide (p.1 ≠ path))

/-- Reading a file. -/
def fsRead : FS → String → Option FileContent
  | [], _ => none
  | (p, c) :: rest, path => if p = path then some c else fsRead rest path

/-- Modelled from the spec: `Model.get_model_filename`, the conventional
model filename inside a model directory.  The base persistence abstraction
that owns it is not under src/; the spec says only that a shared naming
convention derives the name from the directory. -/
def get_model_filename (model_dir : String) : String := model_dir ++ "/model.joblib"

/-- Modelled from the spec: the generic base save hook
(`super(KerasModel, self).save(out_dir)`), owned by the base persistence
abstraction (not under src/); it writes its own artifact(s) in the model
directory. -/
def base_save (fs : FS) (out_dir : String) : FS :=
  fsWrite fs (get_model_filename out_dir) (FileContent.base "model")

/-- Model of `os.path.splitext`: splits off the extension at the last dot
that follows the last path separator. -/
def splitext (p : String) : String × String :=
  let cs := p.data
  let dotIdx := cs.enum.foldl (fun acc q => if q.2 = '.' then some q.1 else acc) none
  let slashIdx := cs.enum.foldl (fun acc q => if q.2 = '/' then some q.1 else acc) none
  match dotIdx with
  | none => (p, "")
  | some i =>
      match slashIdx with
      | some j =>
          if j < i then (String.mk (cs.take i), String.mk (cs.drop i)) else (p, "")
      | none => (String.mk (cs.take i), String.mk (cs.drop i))

/-- `KerasModel.save(out_dir)`: runs the base save hook, strips the
extension from the conventional model filename, then writes the JSON
architecture description and (overwriting) the H5 weight blob. -/
def KerasModel.save (fs : FS) (m : RawModel) (out_dir : String) : FS :=
  let fs1 := base_save fs out_dir
  let filename := (splitext (get_model_filename out_dir)).1
  let json_filename := filename ++ "." ++ "json"
  let h5_filename := filename ++ "." ++ "h5"
  let fs2 := fsWrite fs1 json_filename (FileContent.json m.graph)
  fsWrite fs2 h5_filename (FileContent.h5 m.weights)

/-- Modelled from the spec: `keras.models.model_from_json` reconstructs a
raw model from its architecture description; weights stay uninitialized
until `load_weights` installs the blob. -/
def model_from_json (arch : GraphModel) : RawModel := RawModel.mk arch []

/-- `model.load_weights(h5_filename)`: installs the weight blob. -/
def RawModel.load_weights (m : RawModel) (w : List ℚ) : RawModel :=
  RawModel.mk m.graph w

/-- `KerasModel.load(model_dir)`: derives the same base filename, rebuilds
the raw model from the JSON file, loads the H5 weights into it and installs
it as the active raw model (`none` models the exception on a missing or
malformed file). -/
def KerasModel.load (fs : FS) (model_dir : String) : Option RawModel :=
  let filename := (splitext (get_model_filename model_dir)).1
  let json_filename := filename ++ "." ++ "json"
  let h5_filename := filename ++ "." ++ "h5"
  match fsRead fs json_filename, fsRead fs h5_filename with
  | some (FileContent.json arch), some (FileContent.h5 w) =>
      some ((model_from_json arch).load_weights w)
  | _, _ => none

/- ### SingleTaskDNN and the model-type registry -/

/-- `Model.register_model_type`, modelled as appending to an explicit
registry of type names. -/
def register_model_type (reg : List String) (nm : String) : List String := reg ++ [nm]

/-- The registry after the module is imported: both classes register
themselves, in definition order. -/
def registered_model_types : List String :=
  register_model_type (register_model_type [] "MultiTaskDNN") "SingleTaskDNN"

/-- `SingleTaskDNN.__init__` forwards all three arguments unchanged to
`MultiTaskDNN.__init__`. -/
def SingleTaskDNN.construct (tt : TaskTypes) (mp : ModelParams)
    (initRawModel : Bool) : MultiTaskDNNState :=
  MultiTaskDNN.construct tt mp initRawModel

/-- `SingleTaskDNN` declares no other method: these are inherited. -/
def SingleTaskDNN.get_data_dict : TaskTypes → Mat → Option Mat → List (String × DataValue) :=
  DeepChem.get_data_dict

def SingleTaskDNN.get_sample_weight : TaskTypes → Mat → List (String × List ℚ) :=
  DeepChem.get_sample_weight

def SingleTaskDNN.fit_on_batch : TaskTypes → Mat → Mat → Mat → FitCall :=
  DeepChem.fit_on_batch

def SingleTaskDNN.predict_on_batch : TaskTypes → Mat → (String → Mat) → NDArray :=
  DeepChem.predict_on_batch

def SingleTaskDNN.save : FS → RawModel → String → FS := KerasModel.save

def SingleTaskDNN.load : FS → String → Option RawModel := KerasModel.load

/- ### General list helpers -/

theorem getD_map_lt {α β : Type} (f : α → β) (l : List α) (i : Nat) (d : α) (d2 : β)
    (h : i < l.length) : (l.map f).getD i d2 = f (l.getD i d) := by
  rw [List.getD_eq_getElem?_getD, List.getD_eq_getElem?_getD, List.getElem?_map,
    List.getElem?_eq_getElem h]
  rfl

theorem getD_range_lt {n i : Nat} (d : Nat) (h : i < n) : (List.range n).getD i d = i := by
  rw [List.getD_eq_getElem?_getD, List.getElem?_range h]
  rfl

theorem list_ext_getD {α : Type} (d : α) : ∀ (l1 l2 : List α), l1.length = l2.length →
    (∀ i, i < l1.length → l1.getD i d = l2.getD i d) → l1 = l2 := by
  intro l1
  induction l1 with
  | nil =>
    intro l2 hlen _
    cases l2 with
    | nil => rfl
    | cons y ys => simp at hlen
  | cons x xs ih =>
    intro l2 hlen h
    cases l2 with
    | nil => simp at hlen
    | cons y ys =>
      have h0 := h 0 (by simp)
      simp only [List.getD_cons_zero] at h0
      have htail := ih ys (by simpa using hlen) (fun i hi => by
        have := h (i + 1) (by simpa using Nat.succ_lt_succ hi)
        simpa [List.getD_cons_succ] using this)
      rw [h0, htail]

theorem take_set_succ {α : Type} : ∀ (row : List α) (ind : Nat) (v : α),
    ind < row.length → (row.set ind v).take (ind + 1) = row.take ind ++ [v] := by
  intro row
  induction row with
  | nil => intro ind v h; simp at h
  | cons x xs ih =>
    intro ind v h
    cases ind with
    | zero => simp
    | succ n =>
      simp only [List.set_cons_succ, List.take_succ_cons, List.take_succ_cons]
      rw [ih n v (by simpa using Nat.lt_of_succ_lt_succ h)]
      rfl

/- ### Loop lemmas -/

theorem taskEntries_none (tt : TaskTypes) : ∀ (rest : List String) (ind : Nat),
    taskEntries tt none ind rest = [] := by
  intro rest
  induction rest with
  | nil => intro ind; rfl
  | cons task rest ih => intro ind; simpa [taskEntries] using ih (ind + 1)

theorem taskEntries_some (tt : TaskTypes) (y : Mat) : ∀ (rest : List String) (ind : Nat),
    taskEntries tt (some y) ind rest
      = (List.range rest.length).map (fun j => entryFor tt y (ind + j) (rest.getD j "")) := by
  intro rest
  induction rest with
  | nil => intro ind; rfl
  | cons task rest ih =>
    intro ind
    simp only [taskEntries]
    rw [ih (ind + 1)]
    simp only [List.length_cons, List.range_succ_eq_map, List.map_cons, List.map_map]
    refine List.cons_eq_cons.mpr ⟨by simp, ?_⟩
    apply List.map_congr_left
    intro j hj
    have harith : ind + 1 + j = ind + (j + 1) := by omega
    simp only [Function.comp_apply, Nat.succ_eq_add_one, List.getD_cons_succ, harith]

theorem lossSection_eq (tt : TaskTypes) : ∀ (rest : List String) (ind : Nat),
    lossSection tt ind rest
      = (List.range rest.length).map
          (fun j => (taskName (ind + j), lossName (kindOf tt (rest.getD j "")))) := by
  intro rest
  induction rest with
  | nil => intro ind; rfl
  | cons task rest ih =>
    intro ind
    simp only [lossSection]
    rw [ih (ind + 1)]
    simp only [List.length_cons, List.range_succ_eq_map, List.map_cons, List.map_map]
    refine List.cons_eq_cons.mpr ⟨by simp, ?_⟩
    apply List.map_congr_left
    intro j hj
    have harith : ind + 1 + j = ind + (j + 1) := by omega
    simp only [Function.comp_apply, Nat.succ_eq_add_one, List.getD_cons_succ, harith]

/- ### Head-section lemmas -/

theorem outSelect_headOps (mp : ModelParams) (kind : TaskType) (ind : Nat) :
    (headOps mp kind ind).filterMap outSelect = [(taskName ind, headName ind)] := by
  cases kind <;> rfl

theorem headSelect_headOps (mp : ModelParams) (kind : TaskType) (ind : Nat) :
    (headOps mp kind ind).filterMap headSelect = [headName ind] := by
  cases kind <;> simp [headOps, headSelect]

theorem outSelect_headSection (tt : TaskTypes) (mp : ModelParams) :
    ∀ (rest : List String) (ind : Nat),
    (headSection tt mp ind rest).filterMap outSelect
      = (List.range rest.length).map (fun j => (taskName (ind + j), headName (ind + j))) := by
  intro rest
  induction rest with
  | nil => intro ind; rfl
  | cons task rest ih =>
    intro ind
    simp only [headSection, List.filterMap_append, outSelect_headOps, ih (ind + 1),
      List.length_cons, List.range_succ_eq_map, List.map_cons, List.map_map]
    refine List.cons_eq_cons.mpr ⟨by simp, ?_⟩
    apply List.map_congr_left
    intro j hj
    have harith : ind + 1 + j = ind + (j + 1) := by omega
    simp only [Function.comp_apply, Nat.succ_eq_add_one, harith]

theorem headSelect_headSection (tt : TaskTypes) (mp : ModelParams) :
    ∀ (rest : List String) (ind : Nat),
    (headSection tt mp ind rest).filterMap headSelect
      = (List.range rest.length).map (fun j => headName (ind + j)) := by
  intro rest
  induction rest with
  | nil => intro ind; rfl
  | cons task rest ih =>
    intro ind
    simp only [headSection, List.filterMap_append, headSelect_headOps, ih (ind + 1),
      List.length_cons, List.range_succ_eq_map, List.map_cons, List.map_map]
    refine List.cons_eq_cons.mpr ⟨by simp, ?_⟩
    apply List.map_congr_left
    intro j hj
    have harith : ind + 1 + j = ind + (j + 1) := by omega
    simp only [Function.comp_apply, Nat.succ_eq_add_one, harith]

theorem graphOutputs_buildGraph (tt : TaskTypes) (mp : ModelParams) :
    graphOutputs (buildGraph tt mp)
      = (List.range (sortedTasks tt).length).map (fun i => (taskName i, headName i)) := by
  show (_ :: _ :: _ :: headSection tt mp 0 (sortedTasks tt)).filterMap outSelect = _
  simp only [List.filterMap_cons, outSelect, outSelect_headSection tt mp (sortedTasks tt) 0]
  apply List.map_congr_left
  intro j hj
  simp

theorem denseHeads_buildGraph (tt : TaskTypes) (mp : ModelParams) :
    denseHeads (buildGraph tt mp)
      = (List.range (sortedTasks tt).length).map headName := by
  show (_ :: _ :: _ :: headSection tt mp 0 (sortedTasks tt)).filterMap headSelect = _
  simp only [List.filterMap_cons, headSelect, headSelect_headSection tt mp (sortedTasks tt) 0]
  simp

theorem headOps_mem_headSection (tt : TaskTypes) (mp : ModelParams) :
    ∀ (rest : List String) (ind j : Nat), j < rest.length →
    ∀ op ∈ headOps mp (kindOf tt (rest.getD j "")) (ind + j), op ∈ headSection tt mp ind rest := by
  intro rest
  induction rest with
  | nil => intro ind j h; simp at h
  | cons task rest ih =>
    intro ind j hj op hop
    cases j with
    | zero =>
      simp only [List.getD_cons_zero, Nat.add_zero] at hop
      simp only [headSection, List.mem_append]
      exact Or.inl hop
    | succ n =>
      simp only [List.getD_cons_succ] at hop
      have harith : ind + (n + 1) = (ind + 1) + n := by omega
      rw [harith] at hop
      have := ih (ind + 1) n (by simpa using Nat.lt_of_succ_lt_succ hj) op hop
      simp only [headSection, List.mem_append]
      exact Or.inr this

/- ### Prediction-assembly lemmas -/

theorem setColumn_length (j : Nat) (cvec : List ℚ) :
    ∀ (m : Mat) (i0 : Nat), (setColumn j cvec i0 m).length = m.length := by
  intro m
  induction m with
  | nil => intro i0; rfl
  | cons row rest ih => intro i0; simp [setColumn, ih (i0 + 1)]

theorem setColumn_getD (j : Nat) (cvec : List ℚ) :
    ∀ (m : Mat) (i0 k : Nat), k < m.length →
    (setColumn j cvec i0 m).getD k [] = (m.getD k []).set j (cvec.getD (i0 + k) 0) := by
  intro m
  induction m with
  | nil => intro i0 k h; simp at h
  | cons row rest ih =>
    intro i0 k hk
    cases k with
    | zero => simp [setColumn]
    | succ n =>
      simp only [setColumn, List.getD_cons_succ]
      rw [ih (i0 + 1) n (by simpa using Nat.lt_of_succ_lt_succ hk)]
      have harith : i0 + 1 + n = i0 + (n + 1) := by omega
      rw [harith]

theorem fillColumns_length (tt : TaskTypes) (yd : String → Mat) :
    ∀ (rest : List String) (ind : Nat) (acc : Mat),
    (fillColumns tt yd ind rest acc).length = acc.length := by
  intro rest
  induction rest with
  | nil => intro ind acc; rfl
  | cons task rest ih =>
    intro ind acc
    simp [fillColumns, ih (ind + 1), setColumn_length]

theorem fillColumns_getD (tt : TaskTypes) (yd : String → Mat) :
    ∀ (rest : List String) (ind : Nat) (acc : Mat) (k : Nat), k < acc.length →
    (fillColumns tt yd ind rest acc).getD k [] = rowFill tt yd k ind rest (acc.getD k []) := by
  intro rest
  induction rest with
  | nil => intro ind acc k hk; rfl
  | cons task rest ih =>
    intro ind acc k hk
    simp only [fillColumns, rowFill]
    rw [ih (ind + 1) _ k (by rw [setColumn_length]; exact hk),
      setColumn_getD _ _ acc 0 k hk]
    simp

theorem rowFill_eq (tt : TaskTypes) (yd : String → Mat) (k : Nat) :
    ∀ (rest : List String) (ind : Nat) (row : List ℚ), row.length = ind + rest.length →
    rowFill tt yd k ind rest row
      = row.take ind ++ (List.range rest.length).map
          (fun j => (taskColumn (kindOf tt (rest.getD j "")) (yd (taskName (ind + j)))).getD k 0) := by
  intro rest
  induction rest with
  | nil =>
    intro ind row hlen
    simp only [rowFill, List.length_nil, List.range_zero, List.map_nil, List.append_nil]
    have hl : row.length = ind := by simpa using hlen
    rw [← hl, List.take_length]
  | cons task rest ih =>
    intro ind row hlen
    simp only [List.length_cons] at hlen
    simp only [rowFill]
    rw [ih (ind + 1) _ (by rw [List.length_set]; omega)]
    rw [take_set_succ row ind _ (by omega)]
    simp only [List.length_cons, List.range_succ_eq_map, List.map_cons, List.map_map,
      List.getD_cons_zero, Nat.add_zero, List.append_assoc, List.singleton_append]
    refine congrArg _ (List.cons_eq_cons.mpr ⟨rfl, ?_⟩)
    apply List.map_congr_left
    intro j hj
    have harith : ind + 1 + j = ind + (j + 1) := by omega
    simp only [Function.comp_apply, Nat.succ_eq_add_one, List.getD_cons_succ, harith]

theorem applyKind_nil (kind : TaskType) : applyKind kind [] = 0 := by
  cases kind <;> rfl

theorem taskColumn_getD (kind : TaskType) (out : Mat) (k : Nat) :
    (taskColumn kind out).getD k 0 = applyKind kind (out.getD k []) := by
  rcases Nat.lt_or_ge k out.length with h | h
  · exact getD_map_lt (applyKind kind) out k [] 0 h
  · rw [List.getD_eq_default _ _ (by simpa [taskColumn] using h),
      List.getD_eq_default _ _ h, applyKind_nil]

theorem predict_data_eq (tt : TaskTypes) (X : Mat) (yd : String → Mat) :
    (predict_on_batch tt X yd).data
      = ((List.range X.length).map (fun i =>
          (List.range (sortedTasks tt).length).map (fun j =>
            predEntry tt yd ((sortedTasks tt).getD j "") j i))).flatten := by
  show (fillColumns tt yd 0 (sortedTasks tt) (zerosMat X.length (sortedTasks tt).length)).flatten = _
  refine congrArg List.flatten ?_
  apply list_ext_getD ([] : List ℚ)
  · simp [fillColumns_length, zerosMat, List.length_range]
  · intro i hi
    rw [fillColumns_length] at hi
    simp only [zerosMat, List.length_replicate] at hi
    rw [fillColumns_getD tt yd _ 0 _ i (by simpa [zerosMat] using hi)]
    have hz : (zerosMat X.length (sortedTasks tt).length).getD i []
        = List.replicate (sortedTasks tt).length 0 := by
      rw [List.getD_eq_getElem?_getD]
      simp [zerosMat, List.getElem?_replicate, hi]
    rw [hz, rowFill_eq tt yd i _ 0 _ (by simp), List.take_zero, List.nil_append]
    rw [getD_map_lt _ (List.range X.length) i 0 [] (by simpa using hi), getD_range_lt 0 hi]
    apply List.map_congr_left
    intro j hj
    rw [taskColumn_getD]
    simp [predEntry, Nat.zero_add]

theorem predict_shape_eq (tt : TaskTypes) (X : Mat) (yd : String → Mat) :
    (predict_on_batch tt X yd).shape
      = [X.length, (sortedTasks tt).length].filter (fun d => d != 1) := rfl

/- ### Filesystem lemmas -/

theorem fsRead_fsWrite_same (fs : FS) (path : String) (c : FileContent) :
    fsRead (fsWrite fs path c) path = some c := by
  simp [fsRead, fsWrite]

theorem fsRead_filter_ne (path path2 : String) (h : path2 ≠ path) :
    ∀ fs : FS, fsRead (fs.filter (fun p => decide (p.1 ≠ path))) path2 = fsRead fs path2 := by
  intro fs
  induction fs with
  | nil => rfl
  | cons e rest ih =>
    obtain ⟨k, c⟩ := e
    by_cases hk : k = path
    · subst hk
      have hk2 : ¬ k = path2 := fun hh => h hh.symm
      rw [List.filter_cons, if_neg (by simp)]
      rw [ih]
      simp only [fsRead, if_neg hk2]
    · have hkeep : decide ((k, c).1 ≠ path) = true := by simp [hk]
      rw [List.filter_cons, if_pos hkeep]
      by_cases hk2 : k = path2
      · simp only [fsRead, if_pos hk2]
      · simp only [fsRead, if_neg hk2]
        exact ih

theorem fsRead_fsWrite_ne (fs : FS) (path path2 : String) (c : FileContent)
    (h : path2 ≠ path) : fsRead (fsWrite fs path c) path2 = fsRead fs path2 := by
  simp only [fsWrite, fsRead, if_neg (Ne.symm h)]
  exact fsRead_filter_ne path path2 h fs

theorem str_append_ne {s a b : String} (h : a.length ≠ b.length) : s ++ a ≠ s ++ b := by
  intro he
  apply h
  have hlen := congrArg String.length he
  rw [String.length_append, String.length_append] at hlen
  omega

/- ### Claim theorems -/

/-- C1: for a label vector `y` of length `n`, `to_one_hot y` is an `[n, 2]`
matrix whose row `i` is `[1, 0]` exactly when `y[i] = 0`, `[0, 1]` exactly
when `y[i] = 1`, and `[0, 0]` for any other label value; the transformation
is per-row and order-preserving and raises no error. -/
theorem to_one_hot_spec (y : List ℚ) :
    (to_one_hot y).length = y.length ∧
    ∀ i, i < y.length →
      ((to_one_hot y).getD i []).length = 2 ∧
      ((to_one_hot y).getD i [] = [1, 0] ↔ y.getD i 0 = 0) ∧
      ((to_one_hot y).getD i [] = [0, 1] ↔ y.getD i 0 = 1) ∧
      (y.getD i 0 ≠ 0 → y.getD i 0 ≠ 1 → (to_one_hot y).getD i [] = [0, 0]) := by
  refine ⟨List.length_map y _, ?_⟩
  intro i hi
  rw [show (to_one_hot y).getD i []
      = (fun val => if val = 0 then ([1, 0] : List ℚ)
          else if val = 1 then [0, 1] else [0, 0]) (y.getD i 0) from
    getD_map_lt _ y i 0 [] hi]
  generalize y.getD i 0 = v
  by_cases h0 : v = 0
  · simp [h0]
  · by_cases h1 : v = 1
    · simp [h0, h1]
    · simp [h0, h1]

/-- Witness for C1 at `y = [0, 1, 5]`, `i = 1`. -/
theorem to_one_hot_spec_witness :
    (1 < ([0, 1, 5] : List ℚ).length) ∧
    (((to_one_hot [0, 1, 5]).getD 1 []).length = 2 ∧
      ((to_one_hot [0, 1, 5]).getD 1 [] = [1, 0] ↔ ([0, 1, 5] : List ℚ).getD 1 0 = 0) ∧
      ((to_one_hot [0, 1, 5]).getD 1 [] = [0, 1] ↔ ([0, 1, 5] : List ℚ).getD 1 0 = 1) ∧
      (([0, 1, 5] : List ℚ).getD 1 0 ≠ 0 → ([0, 1, 5] : List ℚ).getD 1 0 ≠ 1 →
        (to_one_hot [0, 1, 5]).getD 1 [] = [0, 0])) :=
  ⟨by decide, (to_one_hot_spec [0, 1, 5]).2 1 (by decide)⟩

/-- C3: `fit_on_batch` hands the engine a sample-weight mapping that sends
`task{i}` to column `i` of the epsilon-shifted weight matrix, and the shift
adds exactly 1/1000 to every entry of `w` before column extraction. -/
theorem fit_weight_epsilon (tt : TaskTypes) (X y w : Mat)
    (hw : ∀ row ∈ w, row.length = (sortedTasks tt).length) :
    (fit_on_batch tt X y w).sample_weight
      = (List.range (sortedTasks tt).length).map
          (fun i => (taskName i, col (addEps w) i)) ∧
    ∀ i, i < (sortedTasks tt).length →
      col (addEps w) i = (col w i).map (fun x => x + 1 / 1000) := by
  constructor
  · rfl
  · intro i hi
    show (w.map (fun row => row.map (fun x => x + 1 / 1000))).map (fun row => row.getD i 0)
        = (w.map (fun row => row.getD i 0)).map (fun x => x + 1 / 1000)
    rw [List.map_map, List.map_map]
  /- per row: reading entry `i` after the elementwise shift equals shifting
     the read entry, because every row has full width `t > i` -/
    apply List.map_congr_left
    intro row hrow
    have hlen : i < row.length := by rw [hw row hrow]; exact hi
    simp only [Function.comp_apply]
    exact getD_map_lt (fun x => x + 1 / 1000) row i 0 0 hlen

/-- Witness for C3 on a `[2, 2]` all-ones weight matrix with two tasks. -/
theorem fit_weight_epsilon_witness :
    (∀ row ∈ ([[1, 1], [1, 1]] : Mat),
        row.length
          = (sortedTasks [("a", TaskType.classification), ("b", TaskType.regression)]).length) ∧
    (∀ i, i < (sortedTasks [("a", TaskType.classification), ("b", TaskType.regression)]).length →
      col (addEps [[1, 1], [1, 1]]) i
        = (col ([[1, 1], [1, 1]] : Mat) i).map (fun x => x + 1 / 1000)) :=
  ⟨by decide,
    (fit_weight_epsilon [("a", TaskType.classification), ("b", TaskType.regression)]
      [] [] [[1, 1], [1, 1]] (by decide)).2⟩

/-- C4: `get_data_dict X y` maps `"input"` to `X` and, when `y` is present,
adds `task{i} → to_one_hot(y[:, i])` for classification tasks and
`task{i} → y[:, i]` for regression tasks, for each task in sorted order;
when `y` is absent the mapping holds only the input entry. -/
theorem get_data_dict_spec (tt : TaskTypes) (X : Mat) :
    get_data_dict tt X none = [("input", DataValue.mat X)] ∧
    (∀ y : Mat, get_data_dict tt X (some y)
      = ("input", DataValue.mat X) ::
          (List.range (sortedTasks tt).length).map
            (fun i => entryFor tt y i ((sortedTasks tt).getD i ""))) ∧
    (∀ (y : Mat) (i : Nat) (task : String), kindOf tt task = TaskType.classification →
      entryFor tt y i task = (taskName i, DataValue.mat (to_one_hot (col y i)))) ∧
    (∀ (y : Mat) (i : Nat) (task : String), kindOf tt task = TaskType.regression →
      entryFor tt y i task = (taskName i, DataValue.vec (col y i))) := by
  refine ⟨?_, ?_, ?_, ?_⟩
  · show ("input", DataValue.mat X) :: taskEntries tt none 0 (sortedTasks tt) = _
    rw [taskEntries_none]
  · intro y
    show ("input", DataValue.mat X) :: taskEntries tt (some y) 0 (sortedTasks tt) = _
    rw [taskEntries_some]
    simp [Nat.zero_add]
  · intro y i task h
    simp [entryFor, h]
  · intro y i task h
    simp [entryFor, h]

/-- Witness for C4: the classification entry at task "a", column 0. -/
theorem get_data_dict_spec_witness :
    (kindOf [("a", TaskType.classification)] "a" = TaskType.classification) ∧
    entryFor [("a", TaskType.classification)] [[0], [1]] 0 "a"
      = (taskName 0, DataValue.mat (to_one_hot (col [[0], [1]] 0))) :=
  ⟨by decide,
    (get_data_dict_spec [("a", TaskType.classification)] []).2.2.1 [[0], [1]] 0 "a" (by decide)⟩

/-- C9: every operation of `SingleTaskDNN` is the corresponding operation of
`MultiTaskDNN` (construction forwards its three arguments unchanged; the
rest are inherited); the subclass contributes only its registered type
name. -/
theorem single_task_delegates :
    SingleTaskDNN.construct = MultiTaskDNN.construct ∧
    SingleTaskDNN.save = KerasModel.save ∧
    SingleTaskDNN.load = KerasModel.load ∧
    SingleTaskDNN.get_data_dict = get_data_dict ∧
    SingleTaskDNN.get_sample_weight = get_sample_weight ∧
    SingleTaskDNN.fit_on_batch = fit_on_batch ∧
    SingleTaskDNN.predict_on_batch = predict_on_batch ∧
    registered_model_types = ["MultiTaskDNN", "SingleTaskDNN"] :=
  ⟨rfl, rfl, rfl, rfl, rfl, rfl, rfl, rfl⟩

/-- C2: one task enumeration everywhere.  `sortedTasks` is the ascending
lexicographic sort of the task identifiers, and construction (output and
head names), input packaging, weight packaging and prediction assembly all
enumerate it the same way, mapping task `i` to key `task{i}` and to
column `i`. -/
theorem task_order_consistent (tt : TaskTypes) (mp : ModelParams) :
    List.Sorted strLe (sortedTasks tt) ∧
    (sortedTasks tt).Perm (tt.map Prod.fst) ∧
    graphOutputs (buildGraph tt mp)
      = (List.range (sortedTasks tt).length).map (fun i => (taskName i, headName i)) ∧
    denseHeads (buildGraph tt mp)
      = (List.range (sortedTasks tt).length).map headName ∧
    (∀ (X y : Mat), get_data_dict tt X (some y)
      = ("input", DataValue.mat X) ::
          (List.range (sortedTasks tt).length).map
            (fun i => entryFor tt y i ((sortedTasks tt).getD i ""))) ∧
    (∀ w : Mat, get_sample_weight tt w
      = (List.range (sortedTasks tt).length).map (fun i => (taskName i, col w i))) ∧
    (∀ (X : Mat) (yd : String → Mat), (predict_on_batch tt X yd).data
      = ((List.range X.length).map (fun i =>
          (List.range (sortedTasks tt).length).map (fun j =>
            predEntry tt yd ((sortedTasks tt).getD j "") j i))).flatten) := by
  refine ⟨List.sorted_insertionSort strLe (tt.map Prod.fst),
    List.perm_insertionSort strLe (tt.map Prod.fst),
    graphOutputs_buildGraph tt mp, denseHeads_buildGraph tt mp, ?_, fun w => rfl,
    fun X yd => predict_data_eq tt X yd⟩
  intro X y
  show ("input", DataValue.mat X) :: taskEntries tt (some y) 0 (sortedTasks tt) = _
  rw [taskEntries_some]
  simp [Nat.zero_add]

/-- C6: construction with the flag set builds and installs the compiled
graph: for each sorted task `i` a dense head wired to the shared dropout
layer (width 2, softmax for classification; width 1, linear for
regression) exposed as output `task{i}`, with per-output loss
binary cross-entropy resp. mean squared error, and one SGD optimizer from
the learning rate, decay, momentum and Nesterov flag. -/
theorem construct_spec (tt : TaskTypes) (mp : ModelParams) :
    MultiTaskDNN.construct tt mp true
      = MultiTaskDNNState.mk tt mp (some (RawModel.mk (buildGraph tt mp) initWeights)) ∧
    (buildGraph tt mp).ops.take 3
      = [GraphOp.add_input "input" mp.data_shape,
         GraphOp.add_node (LayerSpec.dense mp.nb_hidden mp.init mp.activation) "dense" "input",
         GraphOp.add_node (LayerSpec.dropout mp.dropout) "dropout" "dense"] ∧
    (buildGraph tt mp).optimizer
      = SGDSpec.mk mp.learning_rate mp.decay mp.momentum mp.nesterov ∧
    (buildGraph tt mp).loss.length = (sortedTasks tt).length ∧
    ∀ i, i < (sortedTasks tt).length →
      (kindOf tt ((sortedTasks tt).getD i "") = TaskType.classification →
        GraphOp.add_node (LayerSpec.dense 2 mp.init "softmax") (headName i) "dropout"
          ∈ (buildGraph tt mp).ops ∧
        (buildGraph tt mp).loss.getD i ("", "") = (taskName i, "binary_crossentropy")) ∧
      (kindOf tt ((sortedTasks tt).getD i "") = TaskType.regression →
        GraphOp.add_node (LayerSpec.dense 1 mp.init "linear") (headName i) "dropout"
          ∈ (buildGraph tt mp).ops ∧
        (buildGraph tt mp).loss.getD i ("", "") = (taskName i, "mean_squared_error")) ∧
      GraphOp.add_output (taskName i) (headName i) ∈ (buildGraph tt mp).ops := by
  refine ⟨rfl, rfl, rfl, ?_, ?_⟩
  · show (lossSection tt 0 (sortedTasks tt)).length = _
    rw [lossSection_eq]
    simp
  · intro i hi
    have hloss : (buildGraph tt mp).loss.getD i ("", "")
        = (taskName i, lossName (kindOf tt ((sortedTasks tt).getD i ""))) := by
      show (lossSection tt 0 (sortedTasks tt)).getD i ("", "") = _
      rw [lossSection_eq,
        getD_map_lt _ (List.range (sortedTasks tt).length) i 0 ("", "") (by simpa using hi),
        getD_range_lt 0 hi]
      simp [Nat.zero_add]
    have hmem : ∀ op ∈ headOps mp (kindOf tt ((sortedTasks tt).getD i "")) i,
        op ∈ (buildGraph tt mp).ops := by
      intro op hop
      have h0 : op ∈ headSection tt mp 0 (sortedTasks tt) :=
        headOps_mem_headSection tt mp (sortedTasks tt) 0 i hi op
          (by simpa [Nat.zero_add] using hop)
      show op ∈ _ :: _ :: _ :: headSection tt mp 0 (sortedTasks tt)
      exact List.mem_cons_of_mem _ (List.mem_cons_of_mem _ (List.mem_cons_of_mem _ h0))
    refine ⟨?_, ?_, ?_⟩
    · intro hkind
      refine ⟨hmem _ ?_, by rw [hloss, hkind]; rfl⟩
      rw [hkind]
      simp [headOps]
    · intro hkind
      refine ⟨hmem _ ?_, by rw [hloss, hkind]; rfl⟩
      rw [hkind]
      simp [headOps]
    · apply hmem
      cases kindOf tt ((sortedTasks tt).getD i "") <;> simp [headOps]

/-- Witness for C6 on the classification task of a two-task specification. -/
theorem construct_spec_witness :
    (0 < (sortedTasks [("a", TaskType.classification), ("b", TaskType.regression)]).length ∧
      kindOf [("a", TaskType.classification), ("b", TaskType.regression)]
        ((sortedTasks [("a", TaskType.classification), ("b", TaskType.regression)]).getD 0 "")
        = TaskType.classification) ∧
    (GraphOp.add_node
        (LayerSpec.dense 2 (ModelParams.mk 4 8 "g" "relu" 0 1 0 0 true).init "softmax")
        (headName 0) "dropout"
      ∈ (buildGraph [("a", TaskType.classification), ("b", TaskType.regression)]
          (ModelParams.mk 4 8 "g" "relu" 0 1 0 0 true)).ops ∧
    (buildGraph [("a", TaskType.classification), ("b", TaskType.regression)]
        (ModelParams.mk 4 8 "g" "relu" 0 1 0 0 true)).loss.getD 0 ("", "")
      = (taskName 0, "binary_crossentropy")) :=
  ⟨⟨by decide, by decide⟩,
    ((construct_spec [("a", TaskType.classification), ("b", TaskType.regression)]
        (ModelParams.mk 4 8 "g" "relu" 0 1 0 0 true)).2.2.2.2 0 (by decide)).1 (by decide)⟩

/-- C7: `save` derives the base name by stripping the extension from the
conventional model filename, and beyond the base hook writes exactly the
two artifacts `<base>.json` (architecture) and `<base>.h5` (weights,
overwriting); `load` derives the same base name, rebuilds the model from
the JSON file, loads the H5 weights into it and installs the result. -/
theorem save_load_spec (fs : FS) (m : RawModel) (model_dir : String)
    (base : String) (hbase : base = (splitext (get_model_filename model_dir)).1) :
    KerasModel.save fs m model_dir
      = fsWrite (fsWrite (base_save fs model_dir)
          (base ++ "." ++ "json") (FileContent.json m.graph))
          (base ++ "." ++ "h5") (FileContent.h5 m.weights) ∧
    fsRead (KerasModel.save fs m model_dir) (base ++ "." ++ "json")
      = some (FileContent.json m.graph) ∧
    fsRead (KerasModel.save fs m model_dir) (base ++ "." ++ "h5")
      = some (FileContent.h5 m.weights) ∧
    ∀ (fs2 : FS) (arch : GraphModel) (wts : List ℚ),
      fsRead fs2 (base ++ "." ++ "json") = some (FileContent.json arch) →
      fsRead fs2 (base ++ "." ++ "h5") = some (FileContent.h5 wts) →
      KerasModel.load fs2 model_dir = some (RawModel.mk arch wts) := by
  subst hbase
  have hne : (splitext (get_model_filename model_dir)).1 ++ "." ++ "json"
      ≠ (splitext (get_model_filename model_dir)).1 ++ "." ++ "h5" :=
    str_append_ne (by decide)
  have hsave : KerasModel.save fs m model_dir
      = fsWrite (fsWrite (base_save fs model_dir)
          ((splitext (get_model_filename model_dir)).1 ++ "." ++ "json")
          (FileContent.json m.graph))
          ((splitext (get_model_filename model_dir)).1 ++ "." ++ "h5")
          (FileContent.h5 m.weights) := rfl
  refine ⟨hsave, ?_, ?_, ?_⟩
  · rw [hsave, fsRead_fsWrite_ne _ _ _ _ hne]
    exact fsRead_fsWrite_same _ _ _
  · rw [hsave]
    exact fsRead_fsWrite_same _ _ _
  · intro fs2 arch wts h1 h2
    simp only [KerasModel.load]
    rw [h1, h2]
    rfl

/-- Witness for C7: a concrete save in directory "d" and the matching load. -/
theorem save_load_spec_witness :
    (("d/model" : String) = (splitext (get_model_filename "d")).1 ∧
      fsRead (KerasModel.save []
          (RawModel.mk (GraphModel.mk [] [] (SGDSpec.mk 1 0 0 true)) [2]) "d")
        ("d/model" ++ "." ++ "json")
        = some (FileContent.json (GraphModel.mk [] [] (SGDSpec.mk 1 0 0 true))) ∧
      fsRead (KerasModel.save []
          (RawModel.mk (GraphModel.mk [] [] (SGDSpec.mk 1 0 0 true)) [2]) "d")
        ("d/model" ++ "." ++ "h5") = some (FileContent.h5 [2])) ∧
    KerasModel.load (KerasModel.save []
        (RawModel.mk (GraphModel.mk [] [] (SGDSpec.mk 1 0 0 true)) [2]) "d") "d"
      = some (RawModel.mk (GraphModel.mk [] [] (SGDSpec.mk 1 0 0 true)) [2]) :=
  ⟨⟨by decide, by decide, by decide⟩,
    (save_load_spec [] (RawModel.mk (GraphModel.mk [] [] (SGDSpec.mk 1 0 0 true)) [2])
        "d" "d/model" (by decide)).2.2.2
      (KerasModel.save [] (RawModel.mk (GraphModel.mk [] [] (SGDSpec.mk 1 0 0 true)) [2]) "d")
      (GraphModel.mk [] [] (SGDSpec.mk 1 0 0 true)) [2] (by decide) (by decide)⟩

/-- C8: saving a model into a directory and loading from that directory
reinstalls a raw model equal to the original, so every deterministic engine
prediction function applied to the loaded model on a fixed `X` returns
exactly the original predictions. -/
theorem save_load_roundtrip (fs : FS) (m : RawModel) (model_dir : String) :
    KerasModel.load (KerasModel.save fs m model_dir) model_dir = some m ∧
    ∀ (engine : RawModel → Mat → NDArray) (X : Mat),
      (KerasModel.load (KerasModel.save fs m model_dir) model_dir).map (fun rm => engine rm X)
        = some (engine m X) := by
  have hne : (splitext (get_model_filename model_dir)).1 ++ "." ++ "json"
      ≠ (splitext (get_model_filename model_dir)).1 ++ "." ++ "h5" :=
    str_append_ne (by decide)
  have hsave : KerasModel.save fs m model_dir
      = fsWrite (fsWrite (base_save fs model_dir)
          ((splitext (get_model_filename model_dir)).1 ++ "." ++ "json")
          (FileContent.json m.graph))
          ((splitext (get_model_filename model_dir)).1 ++ "." ++ "h5")
          (FileContent.h5 m.weights) := rfl
  have hjson : fsRead (KerasModel.save fs m model_dir)
      ((splitext (get_model_filename model_dir)).1 ++ "." ++ "json")
      = some (FileContent.json m.graph) := by
    rw [hsave, fsRead_fsWrite_ne _ _ _ _ hne]
    exact fsRead_fsWrite_same _ _ _
  have hh5 : fsRead (KerasModel.save fs m model_dir)
      ((splitext (get_model_filename model_dir)).1 ++ "." ++ "h5")
      = some (FileContent.h5 m.weights) := by
    rw [hsave]
    exact fsRead_fsWrite_same _ _ _
  have hload : KerasModel.load (KerasModel.save fs m model_dir) model_dir = some m := by
    simp only [KerasModel.load]
    rw [hjson, hh5]
    rfl
  exact ⟨hload, fun engine X => by rw [hload]; rfl⟩

/-- C10: the final `np.squeeze` removes every singleton dimension, not only
the task dimension: a single-sample batch returns shape `[t]` for `t ≠ 1`
and a zero-dimensional scalar for `t = 1`. -/
theorem predict_squeezes_all_singletons (tt : TaskTypes) (X : Mat) (yd : String → Mat)
    (hn : X.length = 1) :
    (predict_on_batch tt X yd).shape
      = [1, (sortedTasks tt).length].filter (fun d => d != 1) ∧
    ((sortedTasks tt).length ≠ 1 →
      (predict_on_batch tt X yd).shape = [(sortedTasks tt).length]) ∧
    ((sortedTasks tt).length = 1 → (predict_on_batch tt X yd).shape = []) := by
  have hsh := predict_shape_eq tt X yd
  rw [hn] at hsh
  refine ⟨hsh, ?_, ?_⟩
  · intro ht
    rw [hsh]
    have h1 : ((sortedTasks tt).length != 1) = true := by simpa [bne_iff_ne] using ht
    simp [List.filter_cons, h1]
  · intro ht
    rw [hsh, ht]
    rfl

/-- Witness for C10: one sample, two tasks gives shape `[2]`. -/
theorem predict_squeezes_all_singletons_witness :
    (([[0]] : Mat).length = 1 ∧
      (sortedTasks [("a", TaskType.classification), ("b", TaskType.regression)]).length ≠ 1) ∧
    (predict_on_batch [("a", TaskType.classification), ("b", TaskType.regression)] [[0]]
        (fun _ => [[1, 0]])).shape
      = [(sortedTasks [("a", TaskType.classification), ("b", TaskType.regression)]).length] :=
  ⟨⟨by decide, by decide⟩,
    (predict_squeezes_all_singletons [("a", TaskType.classification), ("b", TaskType.regression)]
        [[0]] (fun _ => [[1, 0]]) (by decide)).2.1 (by decide)⟩

/-- Counterexample to C5 as stated: with one task and one sample the claim
gives shape `[n] = [1]`, but the final `np.squeeze` collapses the
`[1, 1]` matrix to a zero-dimensional scalar. -/
theorem predict_single_singleton_cex :
    (predict_on_batch [("a", TaskType.regression)] [[0]] (fun _ => [[5]])).shape ≠ [1] ∧
    (predict_on_batch [("a", TaskType.regression)] [[0]] (fun _ => [[5]])).shape = [] := by
  decide

/-- C5 amended: `predict_on_batch` assembles the `[n, t]` matrix row by
sample and column by sorted task — classification columns are row-wise
arg-max of the two-class output, regression columns the squeezed engine
output — and then squeezes away every singleton dimension; in particular
for `t = 1` the result has shape `[n]` whenever `n ≠ 1`. -/
theorem predict_assembly_amended (tt : TaskTypes) (X : Mat) (yd : String → Mat) :
    (predict_on_batch tt X yd).data
      = ((List.range X.length).map (fun i =>
          (List.range (sortedTasks tt).length).map (fun j =>
            predEntry tt yd ((sortedTasks tt).getD j "") j i))).flatten ∧
    (∀ task : String, kindOf tt task = TaskType.classification →
      ∀ j i, predEntry tt yd task j i = ((argmaxIdx ((yd (taskName j)).getD i [])) : ℚ)) ∧
    (∀ task : String, kindOf tt task = TaskType.regression →
      ∀ j i, predEntry tt yd task j i = ((yd (taskName j)).getD i []).headD 0) ∧
    (predict_on_batch tt X yd).shape
      = [X.length, (sortedTasks tt).length].filter (fun d => d != 1) ∧
    ((sortedTasks tt).length = 1 → X.length ≠ 1 →
      (predict_on_batch tt X yd).shape = [X.length]) := by
  refine ⟨predict_data_eq tt X yd, ?_, ?_, predict_shape_eq tt X yd, ?_⟩
  · intro task hk j i
    simp [predEntry, applyKind, hk]
  · intro task hk j i
    simp [predEntry, applyKind, hk]
  · intro ht hn
    rw [predict_shape_eq, ht]
    have h1 : (X.length != 1) = true := by simpa [bne_iff_ne] using hn
    simp [List.filter_cons, h1]

/-- Witness for the amended C5: one regression task, two samples gives
shape `[2]`. -/
theorem predict_assembly_amended_witness :
    ((sortedTasks [("a", TaskType.regression)]).length = 1 ∧ ([[0], [0]] : Mat).length ≠ 1) ∧
    (predict_on_batch [("a", TaskType.regression)] [[0], [0]] (fun _ => [[5], [7]])).shape
      = [([[0], [0]] : Mat).length] :=
  ⟨⟨by decide, by decide⟩,
    (predict_assembly_amended [("a", TaskType.regression)] [[0], [0]]
        (fun _ => [[5], [7]])).2.2.2.2 (by decide) (by decide)⟩

end DeepChem
